import Mathlib

/- Verification development for the learn-ai repository (src/ai.py).

   Python strings are modelled as lists of characters (Str).  Python's
   str.strip() (remove whitespace from both ends) is modelled by pyStrip;
   the NLTK sentence tokenizer is external to the repository, so the
   chunking functions are parametrised by the sentence list it returns,
   and the model's text generation is parametrised by an oracle
   generate : Str -> Str. -/

abbrev Str : Type := List Char

/-- Python str.strip: drop trailing whitespace (through a reversal) and then
leading whitespace.  The order of the two removals does not matter. -/
def pyStrip (s : Str) : Str :=
  ((s.reverse.dropWhile Char.isWhitespace).reverse).dropWhile Char.isWhitespace

/-- Loop of split_into_chunks (src/ai.py lines 150-163): the accumulator
current_chunk gathers sentences, each followed by one space; a sentence that
does not fit closes the current chunk (stripped) and starts a new one; a final
non-empty accumulator is emitted stripped. -/
def split_into_chunksAux (chunk_size : Nat) : List Str → Str → List Str
  | [], current_chunk =>
      if current_chunk = [] then [] else [pyStrip current_chunk]
  | sentence :: rest, current_chunk =>
      if current_chunk.length + sentence.length ≤ chunk_size then
        split_into_chunksAux chunk_size rest (current_chunk ++ sentence ++ [' '])
      else
        pyStrip current_chunk :: split_into_chunksAux chunk_size rest (sentence ++ [' '])

/-- split_into_chunks (src/ai.py lines 148-163), parametrised by the sentence
list produced by sent_tokenize. -/
def split_into_chunks (sentences : List Str) (chunk_size : Nat) : List Str :=
  split_into_chunksAux chunk_size sentences []

lemma pyStrip_length_le (s : Str) : (pyStrip s).length ≤ s.length := by
  unfold pyStrip
  refine le_trans (List.dropWhile_sublist _).length_le ?_
  rw [List.length_reverse]
  refine le_trans (List.dropWhile_sublist _).length_le ?_
  rw [List.length_reverse]

lemma pyStrip_append_space (s : Str) : pyStrip (s ++ [' ']) = pyStrip s := by
  unfold pyStrip
  rw [List.reverse_append]
  have h : ([' '] : Str).reverse ++ s.reverse = ' ' :: s.reverse := rfl
  rw [h, List.dropWhile_cons_of_pos (by decide : Char.isWhitespace ' ' = true)]

/-- Invariant-passing lemma for claim C1: every chunk produced by the loop is
within the bound or is the strip of a single oversized sentence satisfying P. -/
lemma split_into_chunksAux_bound (chunk_size : Nat) (P : Str → Prop) :
    ∀ (rest : List Str) (cur : Str), (∀ x ∈ rest, P x) →
      ((pyStrip cur).length ≤ chunk_size ∨
        ∃ s, P s ∧ cur = s ++ [' '] ∧ chunk_size < s.length) →
      ∀ c ∈ split_into_chunksAux chunk_size rest cur,
        c.length ≤ chunk_size ∨ ∃ s, P s ∧ c = pyStrip s ∧ chunk_size < s.length := by
  intro rest
  induction rest with
  | nil =>
      intro cur _ hcur c hc
      unfold split_into_chunksAux at hc
      by_cases hne : cur = []
      · simp [hne] at hc
      · simp [hne] at hc
        subst hc
        rcases hcur with h | ⟨s, hPs, hform, hlen⟩
        · exact Or.inl h
        · exact Or.inr ⟨s, hPs, by rw [hform, pyStrip_append_space], hlen⟩
  | cons s rest ih =>
      intro cur hrest hcur c hc
      unfold split_into_chunksAux at hc
      by_cases hfit : cur.length + s.length ≤ chunk_size
      · rw [if_pos hfit] at hc
        refine ih (cur ++ s ++ [' ']) (fun x hx => hrest x (List.mem_cons_of_mem _ hx)) ?_ c hc
        left
        have h1 : cur ++ s ++ [' '] = (cur ++ s) ++ [' '] := by
          rw [List.append_assoc]
        rw [h1, pyStrip_append_space]
        refine le_trans (pyStrip_length_le _) ?_
        rw [List.length_append]
        exact hfit
      · rw [if_neg hfit] at hc
        rcases List.mem_cons.mp hc with hc | hc
        · subst hc
          rcases hcur with h | ⟨t, hPt, hform, hlen⟩
          · exact Or.inl h
          · exact Or.inr ⟨t, hPt, by rw [hform, pyStrip_append_space], hlen⟩
        · refine ih (s ++ [' ']) (fun x hx => hrest x (List.mem_cons_of_mem _ hx)) ?_ c hc
          by_cases hs : s.length ≤ chunk_size
          · left
            rw [pyStrip_append_space]
            exact le_trans (pyStrip_length_le _) hs
          · exact Or.inr ⟨s, hrest s (List.mem_cons_self s rest), rfl, Nat.lt_of_not_le hs⟩

/-- C1: every chunk emitted by split_into_chunks has length at most the chunk
size, or else that chunk is the strip of exactly one sentence of the input
whose own length exceeds the chunk size. -/
theorem split_into_chunks_length_bound (sentences : List Str) (chunk_size : Nat)
    (c : Str) (hc : c ∈ split_into_chunks sentences chunk_size) :
    c.length ≤ chunk_size ∨
      ∃ s, s ∈ sentences ∧ c = pyStrip s ∧ chunk_size < s.length := by
  have h := split_into_chunksAux_bound chunk_size (fun x => x ∈ sentences)
    sentences [] (fun x hx => hx) (Or.inl (by simp [pyStrip])) c hc
  rcases h with h | ⟨s, hs, hcs, hlen⟩
  · exact Or.inl h
  · exact Or.inr ⟨s, hs, hcs, hlen⟩

/-- Witness for C1 at a concrete input: the oversized sentence aaa with chunk
size 1 yields a chunk that is that single sentence. -/
theorem split_into_chunks_length_bound_witness :
    (['a', 'a', 'a'] : Str).length ≤ 1 ∨
      ∃ s, s ∈ [(['a', 'a', 'a'] : Str)] ∧ (['a', 'a', 'a'] : Str) = pyStrip s ∧ 1 < s.length :=
  split_into_chunks_length_bound [['a', 'a', 'a']] 1 ['a', 'a', 'a'] (by decide)

/-- C10: when the first sentence alone exceeds the chunk size, the first else
branch of split_into_chunks appends the stripped empty accumulator, so the
first chunk of the returned list is the empty string. -/
theorem split_into_chunks_empty_first_chunk (s : Str) (rest : List Str)
    (chunk_size : Nat) (h : chunk_size < s.length) :
    ∃ t, split_into_chunks (s :: rest) chunk_size = [] :: t := by
  refine ⟨split_into_chunksAux chunk_size rest (s ++ [' ']), ?_⟩
  have hn : ¬ ([] : Str).length + s.length ≤ chunk_size := by
    simpa using Nat.not_le.mpr h
  simp [split_into_chunks, split_into_chunksAux, hn, pyStrip, h]

/-- Witness for C10: with chunk size 1 and the single oversized sentence aaa,
the first chunk is empty. -/
theorem split_into_chunks_empty_first_chunk_witness :
    ∃ t, split_into_chunks [['a', 'a', 'a']] 1 = [] :: t :=
  split_into_chunks_empty_first_chunk ['a', 'a', 'a'] [] 1 (by decide)

/-- Concatenation of chunks with single spaces re-inserted between them, the
operation named by the spec for claim C2. -/
def joinSpace : List Str → Str
  | [] => []
  | [x] => x
  | x :: y :: rest => x ++ ' ' :: joinSpace (y :: rest)

/-- Sentence as produced by a sentence tokenizer: non-empty and carrying no
leading or trailing whitespace. -/
def cleanSentence (s : Str) : Prop :=
  s ≠ [] ∧ s.dropWhile Char.isWhitespace = s ∧
    s.reverse.dropWhile Char.isWhitespace = s.reverse

instance cleanSentenceDecidable (s : Str) : Decidable (cleanSentence s) :=
  inferInstanceAs (Decidable (s ≠ [] ∧ s.dropWhile Char.isWhitespace = s ∧
    s.reverse.dropWhile Char.isWhitespace = s.reverse))

/-- C2 counterexample: with the clean sentence aaa and positive chunk size 1,
the chunker emits a leading empty chunk, so joining the chunks with single
spaces does not reproduce the joined sentence sequence. -/
theorem split_into_chunks_concat_counterexample :
    0 < 1 ∧ cleanSentence ['a', 'a', 'a'] ∧
      joinSpace (split_into_chunks [['a', 'a', 'a']] 1) ≠ joinSpace [['a', 'a', 'a']] := by
  decide

lemma pyStrip_of_clean {s : Str} (h : cleanSentence s) : pyStrip s = s := by
  obtain ⟨_, hl, hr⟩ := h
  unfold pyStrip
  rw [hr, List.reverse_reverse, hl]

lemma cleanSentence_append {p s : Str} (hp : cleanSentence p) (hs : cleanSentence s) :
    cleanSentence (p ++ ' ' :: s) := by
  obtain ⟨hpne, hpl, hpr⟩ := hp
  obtain ⟨hsne, hsl, hsr⟩ := hs
  refine ⟨by simp [hpne], ?_, ?_⟩
  · rw [List.dropWhile_append, hpl]
    simp [List.isEmpty_iff, hpne]
  · have h1 : (p ++ ' ' :: s).reverse = s.reverse ++ ' ' :: p.reverse := by
      simp
    rw [h1, List.dropWhile_append, hsr]
    simp [List.isEmpty_iff, hsne]

lemma joinSpace_cons_of_ne_nil (a : Str) {l : List Str} (h : l ≠ []) :
    joinSpace (a :: l) = a ++ ' ' :: joinSpace l := by
  cases l with
  | nil => exact absurd rfl h
  | cons x xs => rfl

lemma joinSpace_glue (a b : Str) (l : List Str) :
    joinSpace ((a ++ ' ' :: b) :: l) = a ++ ' ' :: joinSpace (b :: l) := by
  cases l with
  | nil => rfl
  | cons x xs => simp [joinSpace, List.append_assoc]

lemma split_into_chunksAux_ne_nil (chunk_size : Nat) :
    ∀ (rest : List Str) (cur : Str), cur ≠ [] →
      split_into_chunksAux chunk_size rest cur ≠ [] := by
  intro rest
  induction rest with
  | nil =>
      intro cur hcur
      unfold split_into_chunksAux
      simp [hcur]
  | cons s rest ih =>
      intro cur hcur
      unfold split_into_chunksAux
      by_cases hfit : cur.length + s.length ≤ chunk_size
      · rw [if_pos hfit]
        exact ih (cur ++ s ++ [' ']) (by simp)
      · rw [if_neg hfit]
        exact List.cons_ne_nil _ _

lemma split_into_chunksAux_joinSpace (chunk_size : Nat) :
    ∀ (rest : List Str) (p : Str), cleanSentence p → (∀ s ∈ rest, cleanSentence s) →
      joinSpace (split_into_chunksAux chunk_size rest (p ++ [' '])) =
        joinSpace (p :: rest) := by
  intro rest
  induction rest with
  | nil =>
      intro p hp _
      unfold split_into_chunksAux
      rw [if_neg (by simp)]
      rw [pyStrip_append_space, pyStrip_of_clean hp]
  | cons s rest ih =>
      intro p hp hclean
      unfold split_into_chunksAux
      by_cases hfit : (p ++ [' ']).length + s.length ≤ chunk_size
      · rw [if_pos hfit]
        have harr : p ++ [' '] ++ s ++ [' '] = (p ++ ' ' :: s) ++ [' '] := by
          simp
        rw [harr]
        rw [ih (p ++ ' ' :: s) (cleanSentence_append hp (hclean s (List.mem_cons_self s rest)))
          (fun x hx => hclean x (List.mem_cons_of_mem _ hx))]
        exact joinSpace_glue p s rest
      · rw [if_neg hfit]
        rw [pyStrip_append_space, pyStrip_of_clean hp]
        rw [joinSpace_cons_of_ne_nil p
          (split_into_chunksAux_ne_nil chunk_size rest (s ++ [' ']) (by simp))]
        rw [ih s (hclean s (List.mem_cons_self s rest))
          (fun x hx => hclean x (List.mem_cons_of_mem _ hx))]
        rw [joinSpace_cons_of_ne_nil p (List.cons_ne_nil s rest)]

/-- C2 amended: when every tokenized sentence is non-empty with no leading or
trailing whitespace and the first sentence fits within the chunk size, joining
the chunks with single spaces reproduces the joined sentence sequence. -/
theorem split_into_chunks_concat_amended (sentences : List Str) (chunk_size : Nat)
    (hclean : ∀ s ∈ sentences, cleanSentence s)
    (hfirst : ∀ s ∈ sentences.take 1, s.length ≤ chunk_size) :
    joinSpace (split_into_chunks sentences chunk_size) = joinSpace sentences := by
  cases sentences with
  | nil => rfl
  | cons s rest =>
      unfold split_into_chunks split_into_chunksAux
      rw [if_pos (by simpa using hfirst s (by simp))]
      have h0 : ([] : Str) ++ s ++ [' '] = s ++ [' '] := by simp
      rw [h0]
      exact split_into_chunksAux_joinSpace chunk_size rest s
        (hclean s (List.mem_cons_self s rest))
        (fun x hx => hclean x (List.mem_cons_of_mem _ hx))

/-- Witness for the amended C2 on the clean sentences ab, cd, e with chunk
size 5. -/
theorem split_into_chunks_concat_amended_witness :
    joinSpace (split_into_chunks [['a', 'b'], ['c', 'd'], ['e']] 5) =
      joinSpace [['a', 'b'], ['c', 'd'], ['e']] :=
  split_into_chunks_concat_amended [['a', 'b'], ['c', 'd'], ['e']] 5
    (by decide) (by decide)

/-- Marker occurrence: the pattern starts at position i of s. -/
def occursAt (pat s : Str) (i : Nat) : Prop := pat.isPrefixOf (s.drop i) = true

instance occursAtDecidable (pat s : Str) (i : Nat) : Decidable (occursAt pat s i) :=
  inferInstanceAs (Decidable (pat.isPrefixOf (s.drop i) = true))

/-- Tail of Python s.rsplit(pat, 1): the part after the last occurrence of pat,
or none when pat does not occur.  Occurrences in the tail are preferred, which
selects the occurrence with the largest starting index. -/
def afterLast (pat : Str) : Str → Option Str
  | [] => if pat.isPrefixOf ([] : Str) then some (List.drop pat.length []) else none
  | c :: rest =>
      match afterLast pat rest with
      | some t => some t
      | none =>
          if pat.isPrefixOf (c :: rest) then some (List.drop pat.length (c :: rest))
          else none

/-- Python s.rsplit(pat, 1)[-1]: the whole string when pat is absent. -/
def rsplitLastTail (pat s : Str) : Str := (afterLast pat s).getD s

lemma afterLast_none (pat : Str) :
    ∀ s : Str, afterLast pat s = none → ∀ i, ¬ occursAt pat s i := by
  intro s
  induction s with
  | nil =>
      intro h i hocc
      unfold afterLast at h
      by_cases hpre : pat.isPrefixOf ([] : Str) = true
      · rw [if_pos hpre] at h
        exact Option.noConfusion h
      · unfold occursAt at hocc
        rw [List.drop_nil] at hocc
        exact hpre hocc
  | cons c rest ih =>
      intro h i hocc
      unfold afterLast at h
      cases heq : afterLast pat rest with
      | some t => rw [heq] at h; exact Option.noConfusion h
      | none =>
          rw [heq] at h
          by_cases hpre : pat.isPrefixOf (c :: rest) = true
          · rw [if_pos hpre] at h
            exact Option.noConfusion h
          · rw [if_neg hpre] at h
            cases i with
            | zero =>
                unfold occursAt at hocc
                rw [List.drop_zero] at hocc
                exact hpre hocc
            | succ j =>
                unfold occursAt at hocc
                rw [List.drop_succ_cons] at hocc
                exact ih heq j hocc

lemma afterLast_some (pat : Str) (hpat : pat ≠ []) :
    ∀ s t : Str, afterLast pat s = some t →
      ∃ i, occursAt pat s i ∧ (∀ j, occursAt pat s j → j ≤ i) ∧
        t = s.drop (i + pat.length) := by
  intro s
  induction s with
  | nil =>
      intro t h
      unfold afterLast at h
      have hpre : pat.isPrefixOf ([] : Str) = false := by
        cases pat with
        | nil => exact absurd rfl hpat
        | cons a as => rfl
      rw [hpre] at h
      simp at h
  | cons c rest ih =>
      intro t h
      unfold afterLast at h
      cases heq : afterLast pat rest with
      | some u =>
          rw [heq] at h
          have htu : t = u := by
            cases h
            rfl
          obtain ⟨i, hocc, hmax, hu⟩ := ih u heq
          refine ⟨i + 1, ?_, ?_, ?_⟩
          · unfold occursAt at hocc ⊢
            rw [List.drop_succ_cons]
            exact hocc
          · intro j hj
            cases j with
            | zero => exact Nat.zero_le _
            | succ k =>
                refine Nat.succ_le_succ (hmax k ?_)
                unfold occursAt at hj ⊢
                rw [List.drop_succ_cons] at hj
                exact hj
          · rw [htu, hu]
            have harith : i + 1 + pat.length = (i + pat.length) + 1 := by omega
            rw [harith, List.drop_succ_cons]
      | none =>
          rw [heq] at h
          by_cases hpre : pat.isPrefixOf (c :: rest) = true
          · rw [if_pos hpre] at h
            have ht : t = (c :: rest).drop pat.length := by
              cases h
              rfl
            refine ⟨0, ?_, ?_, ?_⟩
            · unfold occursAt
              rw [List.drop_zero]
              exact hpre
            · intro j hj
              cases j with
              | zero => exact Nat.le_refl 0
              | succ k =>
                  unfold occursAt at hj
                  rw [List.drop_succ_cons] at hj
                  exact absurd hj (afterLast_none pat rest heq k)
            · rw [ht, Nat.zero_add]
          · rw [if_neg hpre] at h
            simp at h

/-- Literal template text of ai_response (src/ai.py lines 99-106) up to and
including the context marker. -/
def templateGuidelineContext : String :=
  "\n    ###guideline: Never mention that you were given a context or instructions. Respond naturally as if you are directly addressing the user.Also remember that you are not responding to anyone except the user.\n    ###context:"

/-- Literal template text between the context and the instruction. -/
def templateInstructionMark : String := "\n    ###instruction:"

/-- Literal template text between the instruction and the question. -/
def templateLengthQuestion : String := "\n    ###length: short\n    ###question:"

/-- Literal template text between the question and the response key. -/
def templateNewlineIndent : String := "\n    "

/-- Literal template text after the response key. -/
def templateColonTail : String := ":\n    "

/-- Prompt construction of ai_response (src/ai.py lines 99-106): the template
with context, instruction, question and response key interpolated. -/
def build_template (context instruction question response_key : Str) : Str :=
  templateGuidelineContext.toList ++ context ++
    templateInstructionMark.toList ++ instruction ++
    templateLengthQuestion.toList ++ question ++
    templateNewlineIndent.toList ++ response_key ++ templateColonTail.toList

/-- ai_response (src/ai.py lines 98-109), with ai_generate abstracted as the
oracle generate: build the prompt, generate, keep everything after the last
occurrence of the marker (the whole text when absent), and strip. -/
def ai_response (generate : Str → Str) (context instruction question response_key : Str) : Str :=
  pyStrip (rsplitLastTail (response_key ++ [':'])
    (generate (build_template context instruction question response_key)))

/-- Raw text generated inside ai_response, before extraction. -/
def generated_text (generate : Str → Str) (context instruction question response_key : Str) : Str :=
  generate (build_template context instruction question response_key)

/-- Fixed instruction of ai_answer (src/ai.py lines 112-117). -/
def answerInstruction : String :=
  "\n    Answer the question using only the given information.\n    - If the correct answer is present in the context, provide it concisely.\n    - If the correct answer is NOT in the context, respond with exactly: \x27I am not aware about it.\x27\n    - Do NOT mention the context or refer to external sources.\n    "

/-- Fixed instruction of ai_hint (src/ai.py lines 121-126). -/
def hintInstruction : String :=
  "\n    Provide a hint to help answer the question without giving away the full answer.\n    - The hint should be useful but should not explicitly state the answer.\n    - Do NOT mention that you are providing a hint.\n    - Do NOT refer to any context or external sources.\n    "

/-- Fixed instruction of ai_feedback (src/ai.py lines 130-136). -/
def feedbackInstruction : String :=
  "\n    Evaluate the user\x27s answer based on the correct answer found in the context.\n    - Identify any missing or incorrect points in the user\x27s answer.\n    - Provide a clear and constructive explanation of these points under the section \x27###feedback\x27.\n    - Do NOT mention that you are referring to a provided context or external text.\n    - Respond naturally as if you are directly addressing the user.\n    "

/-- Fixed instruction of ai_verdict (src/ai.py lines 140-145). -/
def verdictInstruction : String :=
  "\n    Based on the correct answer found in the context and the provided feedback, determine if the user\x27s answer conveys the same meaning.\n    - If the user\x27s answer is correct, respond with \x27Correct\x27.\n    - If the user\x27s answer is incorrect, respond with \x27Incorrect\x27.\n    - Do NOT provide additional explanations.\n    "

/-- ai_answer (src/ai.py lines 111-118). -/
def ai_answer (generate : Str → Str) (context question : Str) : Str :=
  ai_response generate context answerInstruction.toList question ("###answer").toList

/-- ai_hint (src/ai.py lines 120-127). -/
def ai_hint (generate : Str → Str) (context question : Str) : Str :=
  ai_response generate context hintInstruction.toList question ("###hint").toList

/-- ai_feedback (src/ai.py lines 129-137): the question slot receives the
question followed by the user answer block. -/
def ai_feedback (generate : Str → Str) (context question user_answer : Str) : Str :=
  ai_response generate context feedbackInstruction.toList
    (question ++ ("\n###user_answer:").toList ++ user_answer) ("###feedback").toList

/-- ai_verdict (src/ai.py lines 139-146): the second argument of ai_response
(the instruction slot) receives the question, user answer and feedback, while
the third argument (the question slot) receives the fixed instruction text. -/
def ai_verdict (generate : Str → Str) (context question user_answer feedback : Str) : Str :=
  ai_response generate context
    (question ++ ("\n###user_answer:").toList ++ user_answer ++
      ("\n###feedback").toList ++ feedback)
    verdictInstruction.toList ("###verdict").toList

/-- C3: ai_response returns the whitespace-stripped substring after the last
occurrence of the marker (response key followed by a colon) in the generated
text, and the whole stripped generated text when the marker never occurs. -/
theorem ai_response_marker_extraction (generate : Str → Str)
    (context instruction question response_key : Str) :
    ((∃ i, occursAt (response_key ++ [':'])
        (generated_text generate context instruction question response_key) i) →
      ∃ i, occursAt (response_key ++ [':'])
          (generated_text generate context instruction question response_key) i ∧
        (∀ j, occursAt (response_key ++ [':'])
          (generated_text generate context instruction question response_key) j → j ≤ i) ∧
        ai_response generate context instruction question response_key =
          pyStrip ((generated_text generate context instruction question response_key).drop
            (i + (response_key ++ [':']).length))) ∧
    ((∀ i, ¬ occursAt (response_key ++ [':'])
        (generated_text generate context instruction question response_key) i) →
      ai_response generate context instruction question response_key =
        pyStrip (generated_text generate context instruction question response_key)) := by
  have hpat : response_key ++ [':'] ≠ [] := by simp
  constructor
  · rintro ⟨i, hi⟩
    cases heq : afterLast (response_key ++ [':'])
        (generated_text generate context instruction question response_key) with
    | none =>
        exact absurd hi (afterLast_none _ _ heq i)
    | some t =>
        obtain ⟨k, hocc, hmax, ht⟩ := afterLast_some _ hpat _ t heq
        refine ⟨k, hocc, hmax, ?_⟩
        show pyStrip (rsplitLastTail (response_key ++ [':'])
          (generated_text generate context instruction question response_key)) = _
        rw [rsplitLastTail, heq, Option.getD_some, ht]
  · intro hno
    cases heq : afterLast (response_key ++ [':'])
        (generated_text generate context instruction question response_key) with
    | none =>
        show pyStrip (rsplitLastTail (response_key ++ [':'])
          (generated_text generate context instruction question response_key)) = _
        rw [rsplitLastTail, heq, Option.getD_none]
    | some t =>
        obtain ⟨k, hocc, _, _⟩ := afterLast_some _ hpat _ t heq
        exact absurd hocc (hno k)

/-- Generation oracle used by the C3 witness: constant output containing the
answer marker once. -/
def constAnswerGen : Str → Str := fun _ => ("###answer: 42").toList

/-- Witness for C3: on the constant generation output the extraction theorem
applies with the marker occurring at index 0. -/
theorem ai_response_marker_extraction_witness :
    ∃ i, occursAt (("###answer").toList ++ [':'])
        (generated_text constAnswerGen [] [] [] (("###answer").toList)) i ∧
      (∀ j, occursAt (("###answer").toList ++ [':'])
        (generated_text constAnswerGen [] [] [] (("###answer").toList)) j → j ≤ i) ∧
      ai_response constAnswerGen [] [] [] (("###answer").toList) =
        pyStrip ((generated_text constAnswerGen [] [] [] (("###answer").toList)).drop
          (i + (("###answer").toList ++ [':']).length)) :=
  (ai_response_marker_extraction constAnswerGen [] [] [] (("###answer").toList)).1
    ⟨0, by decide⟩

/-- Content placed by ai_verdict into the instruction slot of the template:
the question, the user answer block, and the feedback block (note the missing
colon after the feedback marker, as in the source). -/
def verdict_user_block (question user_answer feedback : Str) : Str :=
  question ++ ("\n###user_answer:").toList ++ user_answer ++
    ("\n###feedback").toList ++ feedback

/-- C5: ai_verdict passes the question material as the instruction argument of
ai_response and the fixed verdict instruction as the question argument, while
ai_answer, ai_hint and ai_feedback all pass their fixed instruction as the
instruction argument and the question material as the question argument. -/
theorem ai_verdict_slot_swap (generate : Str → Str)
    (context question user_answer feedback : Str) :
    ai_verdict generate context question user_answer feedback =
      ai_response generate context (verdict_user_block question user_answer feedback)
        verdictInstruction.toList ("###verdict").toList ∧
    ai_answer generate context question =
      ai_response generate context answerInstruction.toList question ("###answer").toList ∧
    ai_hint generate context question =
      ai_response generate context hintInstruction.toList question ("###hint").toList ∧
    ai_feedback generate context question user_answer =
      ai_response generate context feedbackInstruction.toList
        (question ++ ("\n###user_answer:").toList ++ user_answer) ("###feedback").toList :=
  ⟨rfl, rfl, rfl, rfl⟩

/-- First-occurrence split, Python s.split(pat, 1): the text before and after
the first occurrence of pat, scanning left to right; none when pat is absent
(pat present in s is exactly Python pat in s). -/
def pyFindSplit (pat : Str) : Str → Option (Str × Str)
  | [] => if pat.isPrefixOf ([] : Str) then some ([], List.drop pat.length []) else none
  | c :: rest =>
      if pat.isPrefixOf (c :: rest) then some ([], List.drop pat.length (c :: rest))
      else
        match pyFindSplit pat rest with
        | some (pre, post) => some (c :: pre, post)
        | none => none

/-- Fuelled version of Python s.split(pat) for a non-empty pat: cut at every
occurrence, left to right and non-overlapping.  Fuel larger than the text
length always suffices, since each cut consumes at least one character. -/
def pySplitAllFuel (pat : Str) : Nat → Str → List Str
  | 0, s => [s]
  | fuel + 1, s =>
      match pyFindSplit pat s with
      | none => [s]
      | some (pre, post) => pre :: pySplitAllFuel pat fuel post

/-- Python s.split(pat) for non-empty pat. -/
def pySplitAll (pat s : Str) : List Str := pySplitAllFuel pat (s.length + 1) s

/-- Parsing of one raw generation output in generate_questions_and_answers
(src/ai.py lines 199-203): keep the text after the last qa-pairs marker, strip
it, split on the question delimiter, keep fragments containing the answer
delimiter, split those once on it and strip both sides. -/
def parse_qa_response (response : Str) : List (Str × Str) :=
  (pySplitAll (("Question:").toList)
      (pyStrip (rsplitLastTail (("###qa_pairs:").toList) response))).filterMap
    (fun qa =>
      match pyFindSplit (("Answer:").toList) qa with
      | some (question, answer) => some (pyStrip question, pyStrip answer)
      | none => none)

/-- Python dict insertion qa_pairs[k] = v on an insertion-ordered association
list: overwrite the value in place when the key exists, else append. -/
def dictInsert (d : List (Str × Str)) (k v : Str) : List (Str × Str) :=
  if d.any (fun p => p.1 == k) then
    d.map (fun p => if p.1 = k then (p.1, v) else p)
  else d ++ [(k, v)]

/-- Python dict lookup on the insertion-ordered association list. -/
def dictGet (d : List (Str × Str)) (k : Str) : Option Str :=
  (d.find? (fun p => p.1 == k)).map Prod.snd

/-- C6: on the raw text of the spec example, the QA parsing step inserted into
a fresh mapping yields exactly the two expected entries. -/
theorem qa_parse_example :
    (parse_qa_response
        (("###qa_pairs:\nQuestion: What is X?\nAnswer: X is Y.\nQuestion: What is Z?\nAnswer: Z is W.").toList)).foldl
        (fun d qa => dictInsert d qa.1 qa.2) [] =
      [((("What is X?").toList), (("X is Y.").toList)),
        ((("What is Z?").toList), (("Z is W.").toList))] := by
  decide

/-- Literal template text of the QA-synthesis prompt (src/ai.py lines 175-176)
up to and including the context marker. -/
def qaTemplateBeforeChunk : String := "\n            ###context:"

/-- Literal template text of the QA-synthesis prompt (src/ai.py lines 177-194)
after the interpolated chunk. -/
def qaTemplateAfterChunk : String :=
  "\n            ###instruction:\n            Generate a set of distinct questions that comprehensively cover every concept in the context while still reducing the number of questions generated.\n            - Do NOT number the questions.\n            - Do NOT include numbering formats like 1., 2., 3. at the start of any question.\n            - Ensure each question is unique and does not repeat concepts.\n            - Separate each question with a question mark (?), ensuring proper readability.\n\n            After generating the questions, provide detailed and accurate answers for each of them.\n            - Ensure the answers are well-structured and informative.\n            - Maintain clarity and completeness in the responses.\n\n            ###output_format:\n            Question: <Generated Question>\n            Answer: <Generated Answer>\n\n            ###length: Generate as many questions as required to fully understand the content.\n            ###qa_pairs:\n            "

/-- QA-synthesis prompt for one chunk. -/
def qa_template (chunk : Str) : Str :=
  qaTemplateBeforeChunk.toList ++ chunk ++ qaTemplateAfterChunk.toList

/-- Batch start indices, Python range(0, n, batch_size) for batch_size at
least 1 (batch_size 0 raises ValueError in Python and is modelled by no
iterations). -/
def batchStarts (n batch_size : Nat) : List Nat :=
  (List.range ((n + batch_size - 1) / batch_size)).map (fun j => j * batch_size)

/-- Processing of one batch in generate_questions_and_answers (src/ai.py lines
170-203): generate each response of the batch, then parse each response in
order and insert its pairs into the mapping. -/
def process_batch (generate : Str → Str) (qa_pairs : List (Str × Str))
    (batch_chunks : List Str) : List (Str × Str) :=
  (batch_chunks.map (fun chunk => generate (qa_template chunk))).foldl
    (fun d response =>
      (parse_qa_response response).foldl (fun d qa => dictInsert d qa.1 qa.2) d)
    qa_pairs

/-- generate_questions_and_answers (src/ai.py lines 165-208), parametrised by
the generation oracle and the sentence list of the context: chunk, process the
chunks in batches of batch_size, and return the accumulated mapping. -/
def generate_questions_and_answers (generate : Str → Str) (sentences : List Str)
    (chunk_size batch_size : Nat) : List (Str × Str) :=
  (batchStarts (split_into_chunks sentences chunk_size).length batch_size).foldl
    (fun qa_pairs i =>
      process_batch generate qa_pairs
        (((split_into_chunks sentences chunk_size).drop i).take batch_size))
    []

/-- Parsed question-answer pairs of all chunks in processing order. -/
def parsed_qa_stream (generate : Str → Str) (sentences : List Str)
    (chunk_size : Nat) : List (Str × Str) :=
  ((split_into_chunks sentences chunk_size).map
    (fun chunk => parse_qa_response (generate (qa_template chunk)))).flatten

lemma dictInsert_key_fst (p : Str × Str) (k v : Str) :
    (if p.1 = k then (p.1, v) else p).1 = p.1 := by
  by_cases h : p.1 = k <;> simp [h]

lemma dictGet_insert_self (d : List (Str × Str)) (k v : Str) :
    dictGet (dictInsert d k v) k = some v := by
  unfold dictInsert
  by_cases hany : d.any (fun p => p.1 == k) = true
  · rw [if_pos hany]
    induction d with
    | nil => simp at hany
    | cons p d ih =>
        rw [List.map_cons]
        by_cases hp : p.1 = k
        · rw [if_pos hp]
          unfold dictGet
          rw [List.find?_cons_of_pos _ (by simp [hp])]
          rfl
        · rw [if_neg hp]
          have hany2 : d.any (fun p => p.1 == k) = true := by
            rcases List.any_eq_true.mp hany with ⟨q, hq, hq2⟩
            rcases List.mem_cons.mp hq with hq | hq
            · exact absurd (by simpa using hq2) (hq ▸ hp)
            · exact List.any_eq_true.mpr ⟨q, hq, hq2⟩
          unfold dictGet at ih ⊢
          rw [List.find?_cons_of_neg _ (by simp [hp])]
          exact ih hany2
  · rw [if_neg hany]
    have hnone : d.find? (fun p => p.1 == k) = none := by
      rw [List.find?_eq_none]
      intro p hp hpk
      exact hany (List.any_eq_true.mpr ⟨p, hp, hpk⟩)
    unfold dictGet
    rw [List.find?_append, hnone]
    simp

lemma find?_map_overwrite (k v q : Str) (hkq : k ≠ q) :
    ∀ d : List (Str × Str),
      List.find? (fun p => p.1 == q) (d.map (fun p => if p.1 = k then (p.1, v) else p)) =
        List.find? (fun p => p.1 == q) d := by
  intro d
  induction d with
  | nil => rfl
  | cons p d ih =>
      rw [List.map_cons]
      by_cases hpq : p.1 = q
      · have hpk : ¬ p.1 = k := fun h => hkq (h.symm.trans hpq)
        rw [if_neg hpk]
        rw [List.find?_cons_of_pos _ (by simp [hpq]),
          List.find?_cons_of_pos _ (by simp [hpq])]
      · rw [List.find?_cons_of_neg _ (by simp [dictInsert_key_fst, hpq]),
          List.find?_cons_of_neg _ (by simp [hpq])]
        exact ih

lemma dictGet_insert_ne (d : List (Str × Str)) (k v q : Str) (hkq : k ≠ q) :
    dictGet (dictInsert d k v) q = dictGet d q := by
  unfold dictInsert
  by_cases hany : d.any (fun p => p.1 == k) = true
  · rw [if_pos hany]
    unfold dictGet
    rw [find?_map_overwrite k v q hkq d]
  · rw [if_neg hany]
    unfold dictGet
    rw [List.find?_append]
    have hone : List.find? (fun p => p.1 == q) [(k, v)] = none := by
      have hbeq : (k == q) = false := by
        simpa using hkq
      simp [List.find?, hbeq]
    rw [hone]
    simp

lemma take_add_split {α : Type} (m n : Nat) :
    ∀ l : List α, l.take (m + n) = l.take m ++ (l.drop m).take n := by
  induction m with
  | zero => intro l; simp
  | succ m ih =>
      intro l
      cases l with
      | nil => simp
      | cons x xs =>
          rw [Nat.succ_add, List.take_succ_cons, List.take_succ_cons,
            List.drop_succ_cons, List.cons_append, ih xs]

lemma foldl_batch_take {α β : Type} (f : β → α → β) (bs : Nat) :
    ∀ (k : Nat) (l : List α) (d : β),
      ((List.range k).map (fun j => j * bs)).foldl
        (fun d i => ((l.drop i).take bs).foldl f d) d =
        (l.take (k * bs)).foldl f d := by
  intro k
  induction k with
  | zero => intro l d; simp
  | succ k ih =>
      intro l d
      rw [List.range_succ, List.map_append, List.foldl_append, ih]
      simp only [List.map_cons, List.map_nil, List.foldl_cons, List.foldl_nil]
      rw [← List.foldl_append]
      have harith : (k + 1) * bs = k * bs + bs := by ring
      rw [harith, take_add_split]

lemma length_le_ceil_mul (n bs : Nat) (hbs : 1 ≤ bs) :
    n ≤ ((n + bs - 1) / bs) * bs := by
  have h1 := Nat.div_add_mod (n + bs - 1) bs
  have h2 : (n + bs - 1) % bs < bs := Nat.mod_lt _ (by omega)
  rw [Nat.mul_comm]
  set M := bs * ((n + bs - 1) / bs) with hM
  omega

lemma foldl_batchStarts {α β : Type} (f : β → α → β) (batch_size : Nat)
    (hbs : 1 ≤ batch_size) (l : List α) (d : β) :
    (batchStarts l.length batch_size).foldl
      (fun d i => ((l.drop i).take batch_size).foldl f d) d = l.foldl f d := by
  unfold batchStarts
  rw [foldl_batch_take, List.take_of_length_le (length_le_ceil_mul l.length batch_size hbs)]

lemma generate_questions_eq_stream (generate : Str → Str) (sentences : List Str)
    (chunk_size batch_size : Nat) (hbs : 1 ≤ batch_size) :
    generate_questions_and_answers generate sentences chunk_size batch_size =
      (parsed_qa_stream generate sentences chunk_size).foldl
        (fun d qa => dictInsert d qa.1 qa.2) [] := by
  unfold generate_questions_and_answers parsed_qa_stream process_batch
  rw [List.foldl_flatten]
  simp only [List.foldl_map]
  exact foldl_batchStarts
    (fun d chunk => (parse_qa_response (generate (qa_template chunk))).foldl
      (fun d qa => dictInsert d qa.1 qa.2) d)
    batch_size hbs (split_into_chunks sentences chunk_size) []

lemma getLast?_cons_of_ne_nil {α : Type} (a : α) {l : List α} (h : l ≠ []) :
    (a :: l).getLast? = l.getLast? := by
  cases l with
  | nil => exact absurd rfl h
  | cons x xs => exact List.getLast?_cons_cons

lemma foldl_dictInsert_lookup (q : Str) :
    ∀ (pairs : List (Str × Str)) (d : List (Str × Str)),
      dictGet (pairs.foldl (fun d qa => dictInsert d qa.1 qa.2) d) q =
        ((pairs.filter (fun qa => qa.1 == q)).getLast?).elim (dictGet d q)
          (fun qa => some qa.2) := by
  intro pairs
  induction pairs with
  | nil => intro d; rfl
  | cons p pairs ih =>
      intro d
      rw [List.foldl_cons, ih (dictInsert d p.1 p.2)]
      by_cases hpq : p.1 = q
      · rw [List.filter_cons_of_pos (by simp [hpq])]
        cases hfp : (pairs.filter (fun qa => qa.1 == q)).getLast? with
        | some r =>
            have hne : pairs.filter (fun qa => qa.1 == q) ≠ [] := by
              intro h0
              rw [h0] at hfp
              exact Option.noConfusion hfp
            rw [getLast?_cons_of_ne_nil p hne, hfp]
            rfl
        | none =>
            have hnil : pairs.filter (fun qa => qa.1 == q) = [] := by
              cases hl : pairs.filter (fun qa => qa.1 == q) with
              | nil => rfl
              | cons x xs =>
                  rw [hl] at hfp
                  rcases List.getLast?_eq_none_iff.mp hfp with h0
                  exact h0
            rw [hnil, List.getLast?_singleton]
            show dictGet (dictInsert d p.1 p.2) q = some p.2
            rw [← hpq]
            exact dictGet_insert_self d p.1 p.2
      · rw [List.filter_cons_of_neg (by simp [hpq]),
          dictGet_insert_ne d p.1 p.2 q hpq]

/-- C7: the mapping built by generate_questions_and_answers holds, for each
question text, exactly the answer of the last-processed parsed occurrence of
that question (later occurrences overwrite earlier ones). -/
theorem generate_questions_last_write_wins (generate : Str → Str)
    (sentences : List Str) (chunk_size batch_size : Nat)
    (hbs : 1 ≤ batch_size) (question : Str) :
    dictGet (generate_questions_and_answers generate sentences chunk_size batch_size)
        question =
      (((parsed_qa_stream generate sentences chunk_size).filter
          (fun qa => qa.1 == question)).getLast?).map Prod.snd := by
  rw [generate_questions_eq_stream generate sentences chunk_size batch_size hbs,
    foldl_dictInsert_lookup question _ []]
  cases ((parsed_qa_stream generate sentences chunk_size).filter
      (fun qa => qa.1 == question)).getLast? with
  | none => rfl
  | some r => rfl

/-- Generation oracle used by the C7 witness: constant output in which the
same question text occurs twice with different answers. -/
def dupQuestionGen : Str → Str :=
  fun _ => ("###qa_pairs:\nQuestion: A?\nAnswer: one.\nQuestion: A?\nAnswer: two.").toList

/-- Witness for C7 at batch size 1 on a one-chunk context whose generated
output repeats one question text. -/
theorem generate_questions_last_write_wins_witness :
    dictGet (generate_questions_and_answers dupQuestionGen [['x']] 5 1) (("A?").toList) =
      (((parsed_qa_stream dupQuestionGen [['x']] 5).filter
          (fun qa => qa.1 == (("A?").toList))).getLast?).map Prod.snd :=
  generate_questions_last_write_wins dupQuestionGen [['x']] 5 1 (by decide) (("A?").toList)

/-- Names bound at module level in src/ai.py: the nine imported names (lines
1-9), the token assignment (line 16), the eleven function definitions, and the
line-210 tuple assignment. -/
def pythonModuleNames : List String :=
  ["load_dotenv", "login", "AutoTokenizer", "AutoModelForCausalLM", "torch", "prune",
    "autocast", "sent_tokenize", "os", "HUGGINGFACEHUB_API_TOKEN",
    "apply_pruning_efficiently", "apply_low_rank_factorization", "initialize_model",
    "ai_generate", "ai_response", "ai_answer", "ai_hint", "ai_feedback", "ai_verdict",
    "split_into_chunks", "generate_questions_and_answers", "model", "tokenizer", "device"]

/-- Python builtins referenced anywhere in src/ai.py. -/
def pythonBuiltinNames : List String := ["print", "len", "range", "isinstance"]

/-- Local names of apply_pruning_efficiently: its parameters and the variables
assigned inside the function body. -/
def pruningLocalNames : List String :=
  ["model", "amount", "batch_size", "delay", "parameters_to_prune", "name", "module",
    "i", "batch", "param"]

/-- Python name resolution: a name is found among module-level names, builtins,
or the local scope. -/
def resolvesName (locals : List String) (n : String) : Bool :=
  pythonModuleNames.contains n || pythonBuiltinNames.contains n || locals.contains n

/-- Evaluation of a sequence of name references in order: the first unresolved
name aborts execution with a NameError carrying that name. -/
def runNames (locals : List String) : List String → Except String Unit
  | [] => Except.ok ()
  | n :: rest =>
      if resolvesName locals n then runNames locals rest
      else Except.error n

/-- Root names evaluated by one iteration of the batch loop of
apply_pruning_efficiently (src/ai.py lines 28-47), in execution order: the
slice bounds, the two prune calls, the loop over the batch, the prune.remove
call, the cuda availability check and cache release, gc.collect, time.sleep,
and the progress print. -/
def pruningBatchBodyNames : List String :=
  ["parameters_to_prune", "i", "batch_size", "prune", "batch", "prune", "amount",
    "batch", "prune", "module", "torch", "torch", "gc", "time", "delay",
    "print", "i", "batch_size", "len", "parameters_to_prune", "batch_size"]

/-- Name-resolution abstraction of apply_pruning_efficiently (src/ai.py lines
20-49): the prelude (lines 22-26) references only bound names; when the model
has at least one linear layer the batch loop body runs at least once, and
evaluation stops at its first unresolved name.  With no linear layers,
parameters_to_prune is empty and the loop body never executes. -/
def apply_pruning_efficiently (numLinearLayers : Nat) : Except String Unit :=
  if numLinearLayers = 0 then Except.ok ()
  else runNames pruningLocalNames pruningBatchBodyNames

/-- C4: for any model with at least one linear layer the batch loop of
apply_pruning_efficiently fails with a NameError on gc, the first of the two
referenced names (gc, time) that are neither imported nor defined anywhere in
the module, nor builtins. -/
theorem apply_pruning_efficiently_name_error (n : Nat) (h : 0 < n) :
    apply_pruning_efficiently n = Except.error ("gc") ∧
      pythonModuleNames.contains ("gc") = false ∧
      pythonModuleNames.contains ("time") = false ∧
      pythonBuiltinNames.contains ("gc") = false ∧
      pythonBuiltinNames.contains ("time") = false := by
  have hn : n ≠ 0 := Nat.pos_iff_ne_zero.mp h
  unfold apply_pruning_efficiently
  rw [if_neg hn]
  exact ⟨rfl, rfl, rfl, rfl, rfl⟩

/-- Witness for C4 at one linear layer. -/
theorem apply_pruning_efficiently_name_error_witness :
    apply_pruning_efficiently 1 = Except.error ("gc") ∧
      pythonModuleNames.contains ("gc") = false ∧
      pythonModuleNames.contains ("time") = false ∧
      pythonBuiltinNames.contains ("gc") = false ∧
      pythonBuiltinNames.contains ("time") = false :=
  apply_pruning_efficiently_name_error 1 (by decide)

/-- Root names evaluated by the module tail (src/ai.py lines 210-212) in
execution order: the initialize_model call, the apply_low_rank_factorization
call with its model argument, then the apply_pruning call (the callee name is
evaluated before its arguments). -/
def moduleTailNames : List String :=
  ["initialize_model", "apply_low_rank_factorization", "model", "apply_pruning", "model"]

/-- Name-resolution abstraction of the module-level statements at src/ai.py
lines 210-212, executed with no local scope. -/
def runModuleTail : Except String Unit := runNames [] moduleTailNames

/-- C9: the module tail resolves initialize_model and
apply_low_rank_factorization, then fails with a NameError on apply_pruning,
which is bound nowhere in the module (the defined routine is
apply_pruning_efficiently), so top-level pruning is never applied. -/
theorem module_tail_name_error :
    runModuleTail = Except.error ("apply_pruning") ∧
      pythonModuleNames.contains ("apply_pruning") = false ∧
      pythonModuleNames.contains ("apply_pruning_efficiently") = true :=
  ⟨rfl, rfl, rfl⟩

/-- Weight matrices, with full-precision entries modelled as rationals. -/
abbrev Mat (m n : Nat) : Type := Fin m → Fin n → ℚ

/-- torch.mm. -/
def matMul {m k n : Nat} (A : Mat m k) (B : Mat k n) : Mat m n :=
  fun i j => ∑ t, A i t * B t j

/-- torch.diag of a vector. -/
def diagMat {r : Nat} (s : Fin r → ℚ) : Mat r r :=
  fun i j => if i = j then s i else 0

/-- Matrix transpose, .t() in torch. -/
def transposeMat {m n : Nat} (A : Mat m n) : Mat n m := fun i j => A j i

/-- Result shape of torch.svd on an m by n input: U is m by min(m,n), S has
min(m,n) entries, V is n by min(m,n). -/
structure SVDResult (m n : Nat) where
  U : Mat m (min m n)
  S : Fin (min m n) → ℚ
  V : Mat n (min m n)

/-- Column slice A[:, :rank]; torch slicing clamps rank to the column count. -/
def sliceCols {m k : Nat} (rank : Nat) (A : Mat m k) : Mat m (min rank k) :=
  fun i t => A i (Fin.castLE (Nat.min_le_right rank k) t)

/-- Vector slice S[:rank], with the same clamping. -/
def sliceVec {k : Nat} (rank : Nat) (s : Fin k → ℚ) : Fin (min rank k) → ℚ :=
  fun t => s (Fin.castLE (Nat.min_le_right rank k) t)

/-- Modules of a model as compression sees them: linear layers carry a weight
matrix, all other module kinds are untouched by the compression routines. -/
inductive Layer where
  | linear (m n : Nat) (weight : Mat m n) : Layer
  | other : Layer

/-- Replacement weight computed at src/ai.py lines 57-60:
torch.mm(U[:, :rank], torch.mm(torch.diag(S[:rank]), V[:, :rank].t())). -/
def torchLowRankWeight {m n : Nat} (rank : Nat) (res : SVDResult m n) : Mat m n :=
  matMul (sliceCols rank res.U)
    (matMul (diagMat (sliceVec rank res.S)) (transposeMat (sliceCols rank res.V)))

/-- apply_low_rank_factorization (src/ai.py lines 51-66), parametrised by the
torch.svd oracle and by the float32 conversion applied entrywise by .float():
every linear layer's weight is replaced by the reconstruction from the rank-r
truncated decomposition of its full-precision copy; other modules are left
unchanged and the (mutated) model is returned. -/
def apply_low_rank_factorization
    (svd : (m n : Nat) → Mat m n → SVDResult m n) (toFloat32 : ℚ → ℚ)
    (model : List Layer) (rank : Nat) : List Layer :=
  model.map fun layer =>
    match layer with
    | Layer.linear m n w =>
        Layer.linear m n
          (torchLowRankWeight rank (svd m n (fun i j => toFloat32 (w i j))))
    | Layer.other => Layer.other

lemma torchLowRankWeight_entry {m n : Nat} (rank : Nat) (res : SVDResult m n)
    (i : Fin m) (j : Fin n) :
    torchLowRankWeight rank res i j =
      ∑ t : Fin (min rank (min m n)),
        res.U i (Fin.castLE (Nat.min_le_right rank (min m n)) t) *
          res.S (Fin.castLE (Nat.min_le_right rank (min m n)) t) *
          res.V j (Fin.castLE (Nat.min_le_right rank (min m n)) t) := by
  unfold torchLowRankWeight matMul diagMat transposeMat sliceCols sliceVec
  refine Finset.sum_congr rfl ?_
  intro t _
  have hinner :
      ∀ u : Fin (min rank (min m n)),
        (if t = u then res.S (Fin.castLE (Nat.min_le_right rank (min m n)) t) else 0) *
            res.V j (Fin.castLE (Nat.min_le_right rank (min m n)) u) =
          if t = u then
            res.S (Fin.castLE (Nat.min_le_right rank (min m n)) t) *
              res.V j (Fin.castLE (Nat.min_le_right rank (min m n)) u)
          else 0 := by
    intro u
    by_cases h : t = u <;> simp [h]
  rw [Finset.sum_congr rfl (fun u _ => hinner u), Finset.sum_ite_eq]
  rw [if_pos (Finset.mem_univ t), Rat.mul_assoc]

/-- C8: apply_low_rank_factorization maps every linear layer weight to the
entrywise rank-truncated reconstruction sum over the singular triple computed
by the svd oracle on the float32 copy of the weight, leaves other modules
unchanged, and returns the transformed model. -/
theorem apply_low_rank_factorization_spec
    (svd : (m n : Nat) → Mat m n → SVDResult m n) (toFloat32 : ℚ → ℚ)
    (model : List Layer) (rank : Nat) :
    apply_low_rank_factorization svd toFloat32 model rank =
      model.map (fun layer =>
        match layer with
        | Layer.linear m n w =>
            Layer.linear m n (fun i j =>
              ∑ t : Fin (min rank (min m n)),
                (svd m n (fun a b => toFloat32 (w a b))).U i
                    (Fin.castLE (Nat.min_le_right rank (min m n)) t) *
                  (svd m n (fun a b => toFloat32 (w a b))).S
                    (Fin.castLE (Nat.min_le_right rank (min m n)) t) *
                  (svd m n (fun a b => toFloat32 (w a b))).V j
                    (Fin.castLE (Nat.min_le_right rank (min m n)) t))
        | Layer.other => Layer.other) := by
  unfold apply_low_rank_factorization
  refine List.map_congr_left ?_
  intro layer _
  cases layer with
  | other => rfl
  | linear m n w =>
      refine congrArg (Layer.linear m n) ?_
      funext i j
      exact torchLowRankWeight_entry rank (svd m n (fun a b => toFloat32 (w a b))) i j
